import Mathlib

/-!
Verification of libcvd-cl spec claims against a shallow embedding of the
source files:
  src/src/steps/HipsGrayStep.cc
  src/src/steps/HipsRichStep.cc
  src/include/cvd-cl/core/Expect.hh
  src/src/test-pose.cc
-/

namespace LibCvdCl

/-- Modelled from the spec: the buffer-state classes (PointListState,
HipsListState, ...) are not among the given source files; the spec describes
a buffer-state as a device array with a fixed maximum capacity `cap` plus a
valid count `n`, where `getCount` reads `n` and `setCount` overwrites it. -/
structure ListState where
  cap : Nat
  n : Nat

/-- Host-visible effects performed by a step's `execute` body, in program
order: `kernel.setArg i ...`, `o.setCount k`, and
`queue.enqueueNDRangeKernel` with a global size and an optional local
work-group size (`none` for `cl::NullRange`). -/
inductive Action where
  | setArg (index : Nat)
  | setCount (count : Nat)
  | enqueue (globalSize : Nat) (localSize : Option Nat)

/-- Effect of one action on the output buffer-state: only `setCount`
mutates the valid count; the capacity is never touched. -/
def applyAction (s : ListState) : Action → ListState
  | Action.setCount k => { s with n := k }
  | _ => s

/-- Result of running a trace of actions on a buffer-state. -/
def runTrace (tr : List Action) (s : ListState) : ListState :=
  tr.foldl applyAction s

/-- Embedding of HipsGrayStep::execute (HipsGrayStep.cc lines 47-65) given
the input point-list count np: four setArg calls, then
`o_hips.setCount((np / 64) * 64)`, then enqueue with global size np_64 and
local work-group size 64. -/
def hipsGrayTrace (np : Nat) : List Action :=
  [Action.setArg 0, Action.setArg 1, Action.setArg 2, Action.setArg 3,
   Action.setCount (np / 64 * 64),
   Action.enqueue (np / 64 * 64) (Option.some 64)]

/-- Embedding of HipsRichStep::execute (HipsRichStep.cc lines 43-57) given
the input point-list count np: three setArg calls, then
`ohips.setCount(np)`, then enqueue with global size np and no local size. -/
def hipsRichTrace (np : Nat) : List Action :=
  [Action.setArg 0, Action.setArg 1, Action.setArg 2,
   Action.setCount np,
   Action.enqueue np Option.none]

/-- Test for the setCount action. -/
def isSetCount : Action → Bool
  | Action.setCount _ => true
  | _ => false

/-- Test for the kernel-enqueue action. -/
def isEnqueue : Action → Bool
  | Action.enqueue _ _ => true
  | _ => false

/-- C1: HipsGrayStep::execute with input point-list count np sets the
output descriptor-list count to floor(np / 64) * 64; hence it is a
multiple of 64, never exceeds np, and at most 63 trailing points are
dropped. -/
theorem hipsGray_execute_count (np : Nat) (o : ListState) :
    (runTrace (hipsGrayTrace np) o).n = np / 64 * 64 ∧
    64 ∣ (runTrace (hipsGrayTrace np) o).n ∧
    (runTrace (hipsGrayTrace np) o).n ≤ np ∧
    np - (runTrace (hipsGrayTrace np) o).n ≤ 63 := by
  have hn : (runTrace (hipsGrayTrace np) o).n = np / 64 * 64 := rfl
  refine ⟨hn, ?_, ?_, ?_⟩
  · rw [hn]; exact dvd_mul_left 64 (np / 64)
  · rw [hn]; exact Nat.div_mul_le_self np 64
  · rw [hn]; omega

/-- C2: HipsRichStep::execute sets the output descriptor-list count exactly
equal to the input point-list count, with no rounding. -/
theorem hipsRich_execute_count (np : Nat) (o : ListState) :
    (runTrace (hipsRichTrace np) o).n = np := rfl

/-- C3: both HipsGrayStep::execute and HipsRichStep::execute overwrite the
output count (the first setCount action precedes the kernel-enqueue action
in the trace, and a setCount action is present), and the resulting count
does not depend on the previous state of the output buffer: for any two
prior output states o and o' the resulting counts agree. -/
theorem hips_execute_overwrites_count (np : Nat) (o o' : ListState) :
    ((hipsGrayTrace np).findIdx isSetCount < (hipsGrayTrace np).findIdx isEnqueue ∧
     (hipsGrayTrace np).findIdx isSetCount < (hipsGrayTrace np).length) ∧
    ((hipsRichTrace np).findIdx isSetCount < (hipsRichTrace np).findIdx isEnqueue ∧
     (hipsRichTrace np).findIdx isSetCount < (hipsRichTrace np).length) ∧
    (runTrace (hipsGrayTrace np) o).n = (runTrace (hipsGrayTrace np) o').n ∧
    (runTrace (hipsRichTrace np) o).n = (runTrace (hipsRichTrace np) o').n := by
  refine ⟨⟨?_, ?_⟩, ⟨?_, ?_⟩, rfl, rfl⟩
  · show (4 : Nat) < 5; decide
  · show (4 : Nat) < 6; decide
  · show (3 : Nat) < 4; decide
  · show (3 : Nat) < 5; decide

/-- C4: if the input point-list count np does not exceed the output
buffer's capacity, then after either step the output count n satisfies
0 ≤ n ≤ cap (the capacity itself being unchanged by the step). -/
theorem hips_execute_count_bounded (np : Nat) (o : ListState) (h : np ≤ o.cap) :
    (0 ≤ (runTrace (hipsGrayTrace np) o).n ∧
     (runTrace (hipsGrayTrace np) o).n ≤ (runTrace (hipsGrayTrace np) o).cap) ∧
    (0 ≤ (runTrace (hipsRichTrace np) o).n ∧
     (runTrace (hipsRichTrace np) o).n ≤ (runTrace (hipsRichTrace np) o).cap) := by
  have hg : (runTrace (hipsGrayTrace np) o).n = np / 64 * 64 := rfl
  have hgc : (runTrace (hipsGrayTrace np) o).cap = o.cap := rfl
  have hr : (runTrace (hipsRichTrace np) o).n = np := rfl
  have hrc : (runTrace (hipsRichTrace np) o).cap = o.cap := rfl
  rw [hg, hgc, hr, hrc]
  omega

/-- Witness for C4 at np = 70 against a buffer of capacity 100. -/
theorem hips_execute_count_bounded_witness :
    (70 : Nat) ≤ (ListState.mk 100 5).cap ∧
    ((0 ≤ (runTrace (hipsGrayTrace 70) (ListState.mk 100 5)).n ∧
      (runTrace (hipsGrayTrace 70) (ListState.mk 100 5)).n ≤
        (runTrace (hipsGrayTrace 70) (ListState.mk 100 5)).cap) ∧
     (0 ≤ (runTrace (hipsRichTrace 70) (ListState.mk 100 5)).n ∧
      (runTrace (hipsRichTrace 70) (ListState.mk 100 5)).n ≤
        (runTrace (hipsRichTrace 70) (ListState.mk 100 5)).cap)) :=
  ⟨by decide, hips_execute_count_bounded 70 (ListState.mk 100 5) (by decide)⟩

/-- Exception type thrown by the expectation helpers (Expect.hh lines
36-43): ExpectationError carries its message string. -/
inductive CppException where
  | expectationError (message : String)
deriving DecidableEq

/-- Embedding of expect (Expect.hh lines 45-48): if state == false, throw
ExpectationError(message); otherwise return normally. -/
def expect (message : String) (state : Bool) : Except CppException Unit :=
  if state = false then Except.error (CppException.expectationError message)
  else Except.ok ()

/-- Value of cudaSuccess in the cudaError_t enumeration. -/
def cudaSuccess : Nat := 0

/-- Embedding of cutry (Expect.hh lines 50-54): if the error code differs
from cudaSuccess, throw ExpectationError with the fixed message
"CUDA call failed"; otherwise return normally. -/
def cutry (error : Nat) : Except CppException Unit :=
  if error ≠ cudaSuccess then
    Except.error (CppException.expectationError "CUDA call failed")
  else Except.ok ()

/-- C7: expect(message, state) throws ExpectationError carrying that exact
message if and only if state is false; when state is true it returns
normally with no effect. -/
theorem expect_spec (message : String) (state : Bool) :
    (expect message state = Except.error (CppException.expectationError message)
      ↔ state = false) ∧
    (state = true → expect message state = Except.ok ()) := by
  cases state <;> simp [expect]

/-- Witness for C7 at both a false and a true state. -/
theorem expect_spec_witness :
    expect "bad size" false
        = Except.error (CppException.expectationError "bad size") ∧
    expect "bad size" true = Except.ok () :=
  ⟨(expect_spec "bad size" false).1.mpr rfl, (expect_spec "bad size" true).2 rfl⟩

/-- C8: cutry(e) returns normally if and only if e = cudaSuccess, and
whenever e differs from cudaSuccess it throws ExpectationError carrying the
fixed message "CUDA call failed", whatever the error code was. -/
theorem cutry_spec (e : Nat) :
    (cutry e = Except.ok () ↔ e = cudaSuccess) ∧
    (e ≠ cudaSuccess →
      cutry e = Except.error (CppException.expectationError "CUDA call failed")) := by
  by_cases h : e = cudaSuccess <;> simp [cutry, h]

/-- Witness for C8 at the distinct error codes 7 and 12 and at success. -/
theorem cutry_spec_witness :
    ((7 : Nat) ≠ cudaSuccess ∧
      cutry 7 = Except.error (CppException.expectationError "CUDA call failed")) ∧
    ((12 : Nat) ≠ cudaSuccess ∧
      cutry 12 = Except.error (CppException.expectationError "CUDA call failed")) ∧
    cutry 0 = Except.ok () :=
  ⟨⟨by decide, (cutry_spec 7).2 (by decide)⟩,
   ⟨by decide, (cutry_spec 12).2 (by decide)⟩,
   (cutry_spec 0).1.mpr rfl⟩

/-- Outcome of one testPipeline run on one device: normal return, a thrown
cl::Error with its code, or a thrown ExpectationError with its message. -/
inductive RunOutcome where
  | ok
  | clErr (code : Int)
  | expectErr (message : String)
deriving DecidableEq

/-- Test for the ExpectationError outcome. -/
def isExpectErr : RunOutcome → Bool
  | RunOutcome.expectErr _ => true
  | _ => false

/-- Embedding of the per-device loop of main (test-pose.cc lines 606-616):
each device id in turn has testPipeline run inside a try block whose only
handler is `catch (cl::Error & err)`, which logs and falls through to the
next device.  A thrown ExpectationError matches no handler (it derives from
std::invalid_argument, not cl::Error), so it escapes the loop; the result
pairs the ids of devices whose pipeline was started with the exception
escaping the loop, if any. -/
def deviceLoop : List RunOutcome → Nat → List Nat × Option RunOutcome
  | [], _ => ([], Option.none)
  | o :: rest, i =>
    match o with
    | RunOutcome.expectErr m => ([i], Option.some (RunOutcome.expectErr m))
    | _ =>
      let r := deviceLoop rest (i + 1)
      (i :: r.1, r.2)

/-- Counterexample to C6: with two devices where the first run throws
ExpectationError, only device 0 is started, device 1 never runs, and the
exception escapes the per-device loop uncaught. -/
theorem deviceLoop_expect_escapes_cex :
    (deviceLoop [RunOutcome.expectErr "bad buffer", RunOutcome.ok] 0).1 = [0] ∧
    (deviceLoop [RunOutcome.expectErr "bad buffer", RunOutcome.ok] 0).2 =
      Option.some (RunOutcome.expectErr "bad buffer") ∧
    [0] ≠ List.range 2 := by
  refine ⟨rfl, rfl, by decide⟩

/-- C6 amended: device-backend failures (cl::Error) are caught at the
per-device loop, which logs and proceeds, so if no run throws
ExpectationError then every device's pipeline is started and nothing
escapes the loop — even when some devices fail with cl::Error. -/
theorem deviceLoop_clError_contained (outcomes : List RunOutcome)
    (h : ∀ o ∈ outcomes, isExpectErr o = false) :
    (deviceLoop outcomes 0).1 = List.range outcomes.length ∧
    (deviceLoop outcomes 0).2 = Option.none := by
  have main : ∀ (l : List RunOutcome) (i : Nat),
      (∀ o ∈ l, isExpectErr o = false) →
      (deviceLoop l i).1 = List.range' i l.length ∧
      (deviceLoop l i).2 = Option.none := by
    intro l
    induction l with
    | nil => intro i _; exact ⟨rfl, rfl⟩
    | cons o rest ih =>
      intro i hl
      have ho : isExpectErr o = false := hl o (List.mem_cons_self o rest)
      have hrest : ∀ x ∈ rest, isExpectErr x = false :=
        fun x hx => hl x (List.mem_cons_of_mem o hx)
      have hr := ih (i + 1) hrest
      cases o with
      | ok =>
        refine ⟨?_, ?_⟩ <;>
          simp [deviceLoop, hr.1, hr.2, List.range'_succ]
      | clErr c =>
        refine ⟨?_, ?_⟩ <;>
          simp [deviceLoop, hr.1, hr.2, List.range'_succ]
      | expectErr m => simp [isExpectErr] at ho
  have hm := main outcomes 0 h
  rw [List.range_eq_range']
  exact hm

/-- Witness for C6 amended: three devices, the middle one failing with a
cl::Error, all three started and nothing escaping. -/
theorem deviceLoop_clError_contained_witness :
    (∀ o ∈ [RunOutcome.ok, RunOutcome.clErr 5, RunOutcome.ok],
        isExpectErr o = false) ∧
    ((deviceLoop [RunOutcome.ok, RunOutcome.clErr 5, RunOutcome.ok] 0).1 =
        List.range [RunOutcome.ok, RunOutcome.clErr 5, RunOutcome.ok].length ∧
     (deviceLoop [RunOutcome.ok, RunOutcome.clErr 5, RunOutcome.ok] 0).2 =
        Option.none) :=
  ⟨by decide, deviceLoop_clError_contained _ (by decide)⟩

/-- Accumulator of the score-statistics loop (test-pose.cc lines 366-384):
running total, best score so far (initialised to 0), count of scores
strictly greater than zero, and index of the best score (initialised
to 0). -/
structure ScoreStats where
  total : ℚ
  best : ℚ
  non0 : Nat
  ibest : Nat
deriving DecidableEq

/-- Initial values of the statistics accumulator (test-pose.cc lines
367-370). -/
def initStats : ScoreStats :=
  { total := 0, best := 0, non0 := 0, ibest := 0 }

/-- One iteration of the loop body (test-pose.cc lines 374-384) on the
pair (i, score): `total += score; non0 += (score > 0);
if (score > best) \x7b best = score; ibest = i; \x7d`. -/
def scoreStep (st : ScoreStats) (iscore : Nat × ℚ) : ScoreStats :=
  let st1 : ScoreStats :=
    { st with
      total := st.total + iscore.2,
      non0 := st.non0 + (if 0 < iscore.2 then 1 else 0) }
  if st1.best < iscore.2 then { st1 with best := iscore.2, ibest := iscore.1 }
  else st1

/-- Statistics computed by the whole loop over the score list read back
from the device. -/
def scoreScan (scores : List ℚ) : ScoreStats :=
  (scores.enum).foldl scoreStep initStats

/-- Position of the first occurrence of the value m in a list of scores
(the first-seen argmax index when m is the maximal score). -/
def firstIdxOf (m : ℚ) : List ℚ → Nat
  | [] => 0
  | s :: rest => if s = m then 0 else firstIdxOf m rest + 1

theorem scoreStep_best (st : ScoreStats) (p : Nat × ℚ) :
    (scoreStep st p).best = if st.best < p.2 then p.2 else st.best := by
  by_cases h : st.best < p.2 <;> simp [scoreStep, h]

theorem scoreStep_ibest (st : ScoreStats) (p : Nat × ℚ) :
    (scoreStep st p).ibest = if st.best < p.2 then p.1 else st.ibest := by
  by_cases h : st.best < p.2 <;> simp [scoreStep, h]

theorem scoreStep_non0 (st : ScoreStats) (p : Nat × ℚ) :
    (scoreStep st p).non0 = st.non0 + (if 0 < p.2 then 1 else 0) := by
  by_cases h : st.best < p.2 <;> simp [scoreStep, h]

/-- When every remaining score is at most the current best, the fold
leaves both the best score and the best index untouched. -/
theorem scoreScan_aux_le (l : List ℚ) : ∀ (k : Nat) (st : ScoreStats),
    (∀ s ∈ l, s ≤ st.best) →
    ((List.enumFrom k l).foldl scoreStep st).best = st.best ∧
    ((List.enumFrom k l).foldl scoreStep st).ibest = st.ibest := by
  induction l with
  | nil => intro k st _; exact ⟨rfl, rfl⟩
  | cons s rest ih =>
    intro k st h
    have hs : ¬ st.best < s := not_lt.mpr (h s (List.mem_cons_self s rest))
    have hb : (scoreStep st (k, s)).best = st.best := by
      rw [scoreStep_best]; simp [hs]
    have hi : (scoreStep st (k, s)).ibest = st.ibest := by
      rw [scoreStep_ibest]; simp [hs]
    have hrest : ∀ x ∈ rest, x ≤ (scoreStep st (k, s)).best := by
      rw [hb]; exact fun x hx => h x (List.mem_cons_of_mem s hx)
    have hr := ih (k + 1) (scoreStep st (k, s)) hrest
    refine ⟨?_, ?_⟩
    · rw [List.enumFrom, List.foldl_cons, hr.1, hb]
    · rw [List.enumFrom, List.foldl_cons, hr.2, hi]

/-- When m is a maximal element of the remaining scores and exceeds the
current best, the fold ends with best = m and with ibest at the position
of the first occurrence of m. -/
theorem scoreScan_aux_max (l : List ℚ) : ∀ (k : Nat) (st : ScoreStats) (m : ℚ),
    m ∈ l → (∀ s ∈ l, s ≤ m) → st.best < m →
    ((List.enumFrom k l).foldl scoreStep st).best = m ∧
    ((List.enumFrom k l).foldl scoreStep st).ibest = k + firstIdxOf m l := by
  induction l with
  | nil => intro k st m hmem _ _; cases hmem
  | cons s rest ih =>
    intro k st m hmem hmax hlt
    by_cases hsm : s = m
    · subst hsm
      have hb : (scoreStep st (k, s)).best = s := by
        rw [scoreStep_best]; simp [hlt]
      have hi : (scoreStep st (k, s)).ibest = k := by
        rw [scoreStep_ibest]; simp [hlt]
      have hrest : ∀ x ∈ rest, x ≤ (scoreStep st (k, s)).best := by
        rw [hb]; exact fun x hx => hmax x (List.mem_cons_of_mem s hx)
      have hA := scoreScan_aux_le rest (k + 1) (scoreStep st (k, s)) hrest
      refine ⟨?_, ?_⟩
      · rw [List.enumFrom, List.foldl_cons, hA.1, hb]
      · rw [List.enumFrom, List.foldl_cons, hA.2, hi]
        simp [firstIdxOf]
    · have hmr : m ∈ rest := by
        rcases List.mem_cons.mp hmem with h1 | h2
        · exact absurd h1.symm hsm
        · exact h2
      have hsle : s ≤ m := hmax s (List.mem_cons_self s rest)
      have hslt : s < m := lt_of_le_of_ne hsle hsm
      have hmaxr : ∀ x ∈ rest, x ≤ m :=
        fun x hx => hmax x (List.mem_cons_of_mem s hx)
      have hlt2 : (scoreStep st (k, s)).best < m := by
        rw [scoreStep_best]
        by_cases h : st.best < s <;> simp [h] <;> [exact hslt; exact hlt]
      have hB := ih (k + 1) (scoreStep st (k, s)) m hmr hmaxr hlt2
      refine ⟨?_, ?_⟩
      · rw [List.enumFrom, List.foldl_cons, hB.1]
      · rw [List.enumFrom, List.foldl_cons, hB.2]
        simp [firstIdxOf, hsm]
        omega

/-- The non-zero counter sums exactly the scores strictly greater than
zero, whatever happens to the best-score tracking. -/
theorem scoreScan_aux_non0 (l : List ℚ) : ∀ (k : Nat) (st : ScoreStats),
    ((List.enumFrom k l).foldl scoreStep st).non0 =
      st.non0 + l.countP (fun s => decide (0 < s)) := by
  induction l with
  | nil => intro k st; simp [List.enumFrom]
  | cons s rest ih =>
    intro k st
    rw [List.enumFrom, List.foldl_cons, ih (k + 1) (scoreStep st (k, s)),
      scoreStep_non0, List.countP_cons]
    by_cases h : 0 < s <;> simp [h]
    all_goals omega

/-- Counterexample to C5: for the read-back score list [-5, -1] the unique
argmax is at index 1, but the selection loop leaves ibest at 0, so the
selected index is not the argmax of the score list. -/
theorem scoreScan_argmax_cex :
    ((-1 : ℚ) ∈ [(-5 : ℚ), -1] ∧ (∀ s ∈ [(-5 : ℚ), -1], s ≤ -1)) ∧
    firstIdxOf (-1) [(-5 : ℚ), -1] = 1 ∧
    (scoreScan [(-5 : ℚ), -1]).ibest = 0 := by
  refine ⟨⟨?_, ?_⟩, ?_, ?_⟩ <;> decide

/-- C5 amended: whenever the maximal score m of the read-back list is
strictly positive, the selection loop ends with best = m and with ibest
equal to the first-seen index attaining m (ties resolved by first-seen
index); when no score is strictly positive the loop instead leaves ibest
at 0 (see the companion claim on non-positive scores). -/
theorem scoreScan_argmax_of_pos (scores : List ℚ) (m : ℚ)
    (hmem : m ∈ scores) (hmax : ∀ s ∈ scores, s ≤ m) (hpos : 0 < m) :
    (scoreScan scores).best = m ∧
    (scoreScan scores).ibest = firstIdxOf m scores := by
  have h0 : initStats.best < m := hpos
  have hB := scoreScan_aux_max scores 0 initStats m hmem hmax h0
  have he : scores.enum = List.enumFrom 0 scores := rfl
  rw [scoreScan, he]
  exact ⟨hB.1, by rw [hB.2, Nat.zero_add]⟩

/-- Witness for C5 amended: scores [1, 3, 3] have maximum 3 first attained
at index 1, and the loop selects best = 3, ibest = 1. -/
theorem scoreScan_argmax_of_pos_witness :
    ((3 : ℚ) ∈ [(1 : ℚ), 3, 3] ∧ (∀ s ∈ [(1 : ℚ), 3, 3], s ≤ 3) ∧ (0 : ℚ) < 3) ∧
    ((scoreScan [(1 : ℚ), 3, 3]).best = 3 ∧
     (scoreScan [(1 : ℚ), 3, 3]).ibest = firstIdxOf 3 [(1 : ℚ), 3, 3]) :=
  ⟨⟨by decide, by decide, by decide⟩,
   scoreScan_argmax_of_pos [(1 : ℚ), 3, 3] 3 (by decide) (by decide) (by decide)⟩

/-- C10: if every read-back score is at most zero, the loop leaves the
best index at 0 and the best score at 0 (hypothesis 0 is then selected via
hypo_best.setCount and run through the single-hypothesis step), and the
non-zero counter counts exactly the scores strictly greater than zero. -/
theorem scoreScan_all_nonpositive (scores : List ℚ)
    (h : ∀ s ∈ scores, s ≤ 0) :
    (scoreScan scores).ibest = 0 ∧
    (scoreScan scores).best = 0 ∧
    (scoreScan scores).non0 = scores.countP (fun s => decide (0 < s)) := by
  have h0 : ∀ s ∈ scores, s ≤ initStats.best := h
  have hA := scoreScan_aux_le scores 0 initStats h0
  have hC := scoreScan_aux_non0 scores 0 initStats
  have he : scores.enum = List.enumFrom 0 scores := rfl
  rw [scoreScan, he]
  exact ⟨hA.2, hA.1, by rw [hC]; simp [initStats]⟩

/-- Witness for C10 on the all-non-positive score list [-3, 0, -1]. -/
theorem scoreScan_all_nonpositive_witness :
    (∀ s ∈ [(-3 : ℚ), 0, -1], s ≤ 0) ∧
    ((scoreScan [(-3 : ℚ), 0, -1]).ibest = 0 ∧
     (scoreScan [(-3 : ℚ), 0, -1]).best = 0 ∧
     (scoreScan [(-3 : ℚ), 0, -1]).non0 =
       [(-3 : ℚ), 0, -1].countP (fun s => decide (0 < s))) :=
  ⟨by decide, scoreScan_all_nonpositive [(-3 : ℚ), 0, -1] (by decide)⟩

/-- Names of the four steps run inside the pose-refinement loop of
testPipeline. -/
inductive RefineStep where
  | wls
  | cholesky
  | se3exp
  | matmul
deriving DecidableEq

/-- Embedding of the refinement loop of testPipeline (test-pose.cc lines
345-356): `for (int i = 0; i < 10; i++)` runs runWls, runCholesky,
runSe3Exp and runMul, in that order, appending their executions to the
pipeline trace. -/
def refinementTrace : List RefineStep :=
  (List.range 10).foldl
    (fun acc _ =>
      acc ++ [RefineStep.wls, RefineStep.cholesky, RefineStep.se3exp,
              RefineStep.matmul])
    []

/-- C9: the refinement cycle runs exactly 10 iterations, each performing,
in order, the weighted-least-squares linearization, the Cholesky solve,
the SE3 exponential and the matrix composition. -/
theorem refinement_ten_iterations :
    refinementTrace =
      List.flatten (List.replicate 10
        [RefineStep.wls, RefineStep.cholesky, RefineStep.se3exp,
         RefineStep.matmul]) ∧
    refinementTrace.length = 40 := by
  refine ⟨?_, ?_⟩ <;> decide

end LibCvdCl
